import Mathlib

/-!
Verification development for the m4s-converter repository.

The repository merges cached audio/video segment pairs into playable
containers.  The merge orchestration engine (segment scanner, duplicate
classifier, output path resolver, muxer adapter, batch coordinator) is
described by the specification; the repository sources additionally hold
the `safe_title` sanitizer of `copy_and_rename_files` (README) and the
`GetMP4Box` bootstrap (internal/linux.go), which are embedded directly.
-/

namespace M4S

/-- File contents as a byte list. -/
abbrev Content := List Nat

/-- Modelled from the spec: output paths produced by the resolver.  The spec
is missing the concrete path-suffixing code (only the README documents the
rename policy), so a path is modelled as a base name together with a numeric
disambiguation suffix; suffix `0` stands for the unsuffixed candidate path
and suffix `n+1` for the n-th renamed variant. -/
structure Path where
  base : String
  idx : Nat
deriving DecidableEq

/-- A filesystem as an association list from paths to contents; an earlier
binding shadows a later one. -/
abbrev FS := List (Path × Content)

/-- Look up the content stored at a path. -/
def lookup : FS → Path → Option Content
  | [], _ => none
  | (q, c) :: rest, p => if q = p then some c else lookup rest p

/-- Write content to a path (shadowing any previous binding). -/
def write (fs : FS) (p : Path) (c : Content) : FS := (p, c) :: fs

/-- Modelled from the spec: the Duplicate Classifier.  The resolver's code is
not in the sources; per the spec an existing file is an exact duplicate
exactly when it is byte-for-byte identical to what this merge would
produce. -/
def isDuplicate (fs : FS) (p : Path) (merged : Content) : Bool :=
  match lookup fs p with
  | some c => c = merged
  | none => false

/-- The policy decision of the Output Path Resolver. -/
inductive Decision where
  | proceedFresh
  | abortDuplicate
  | skipped
  | overwrite
  | rename (p : Path)
deriving DecidableEq

/-- One plus the largest suffix index bound in the filesystem; used as the
pigeonhole bound for the rename search. -/
def maxIdx (fs : FS) : Nat := (fs.map (fun e => e.1.idx)).foldr max 0

theorem mem_idx_le_maxIdx :
    ∀ {fs : FS} {e : Path × Content}, e ∈ fs → e.1.idx ≤ maxIdx fs := by
  intro fs
  induction fs with
  | nil => intro e h; cases h
  | cons hd tl ih =>
    intro e h
    rcases List.mem_cons.mp h with h | h
    · subst h
      simp only [maxIdx, List.map_cons, List.foldr_cons]
      exact Nat.le_max_left _ _
    · have := ih h
      simp only [maxIdx, List.map_cons, List.foldr_cons] at this ⊢
      exact le_trans this (Nat.le_max_right _ _)

theorem lookup_eq_some_mem :
    ∀ {fs : FS} {p : Path} {c : Content}, lookup fs p = some c → (p, c) ∈ fs := by
  intro fs
  induction fs with
  | nil => intro p c h; simp [lookup] at h
  | cons hd tl ih =>
    intro p c h
    obtain ⟨q, d⟩ := hd
    simp only [lookup] at h
    by_cases hq : q = p
    · rw [if_pos hq] at h
      injection h with h2
      subst hq
      subst h2
      exact List.mem_cons_self _ _
    · rw [if_neg hq] at h
      exact List.mem_cons.mpr (Or.inr (ih h))

theorem lookup_maxIdx_succ (fs : FS) (b : String) :
    lookup fs ⟨b, maxIdx fs + 1⟩ = none := by
  cases h : lookup fs ⟨b, maxIdx fs + 1⟩ with
  | none => rfl
  | some c =>
    have hle : maxIdx fs + 1 ≤ maxIdx fs :=
      mem_idx_le_maxIdx (lookup_eq_some_mem h)
    omega

theorem rename_exists (fs : FS) (b : String) :
    ∃ n, 1 ≤ n ∧ lookup fs ⟨b, n⟩ = none :=
  ⟨maxIdx fs + 1, Nat.succ_le_succ (Nat.zero_le _), lookup_maxIdx_succ fs b⟩

/-- Modelled from the spec: the rename policy suffixes the output path with
an incrementing numeric counter until a path that does not yet exist is
found; the least free suffix index is chosen. -/
def renameIdx (fs : FS) (b : String) : Nat :=
  Nat.find (rename_exists fs b)

/-- Modelled from the spec: the Output Path Resolver's decision table.
Given the skip/overlay flags, the candidate output path and the content the
merge would produce, decide between proceed-fresh, abort-duplicate, skip,
overwrite and rename. -/
def resolve (fs : FS) (skip overlay : Bool) (cand : Path) (merged : Content) :
    Decision :=
  match lookup fs cand with
  | none => .proceedFresh
  | some c =>
    if c = merged then .abortDuplicate
    else if skip then .skipped
    else if overlay then .overwrite
    else .rename ⟨cand.base, renameIdx fs cand.base⟩

/-- The observable effect of acting on one resolver decision: the resulting
filesystem, whether a muxer process was invoked, and which path (if any)
was written. -/
structure StepResult where
  fs : FS
  invoked : Bool
  written : Option Path
deriving DecidableEq

/-- Modelled from the spec: the per-title step of the Batch Coordinator.
Resolve the candidate path; on a proceed/rename decision invoke the muxer
and write the merged content at the decided path, otherwise leave the
filesystem untouched and invoke no process. -/
def execute (fs : FS) (skip overlay : Bool) (cand : Path) (merged : Content) :
    StepResult :=
  match resolve fs skip overlay cand merged with
  | .proceedFresh => ⟨write fs cand merged, true, some cand⟩
  | .abortDuplicate => ⟨fs, false, none⟩
  | .skipped => ⟨fs, false, none⟩
  | .overwrite => ⟨write fs cand merged, true, some cand⟩
  | .rename p => ⟨write fs p merged, true, some p⟩

theorem lookup_write (fs : FS) (p q : Path) (c : Content) :
    lookup (write fs p c) q = if p = q then some c else lookup fs q := rfl

theorem resolve_proceedFresh_iff (fs : FS) (s o : Bool) (cand : Path)
    (merged : Content) :
    resolve fs s o cand merged = .proceedFresh ↔ lookup fs cand = none := by
  constructor
  · intro h
    cases hc : lookup fs cand with
    | none => rfl
    | some c =>
      exfalso
      simp only [resolve, hc] at h
      split_ifs at h
  · intro h
    simp [resolve, h]

/-- A merge task: candidate output path plus the content the merge of this
title's segment pair would produce (the muxer is deterministic for a fixed
input pair). -/
structure Task where
  cand : Path
  merged : Content
deriving DecidableEq

/-- Modelled from the spec: the Batch Coordinator iterates the discovered
titles in scanner order, executes each task against the evolving
filesystem and records the resolver decisions. -/
def runBatch (skip overlay : Bool) : FS → List Task → FS × List Decision
  | fs, [] => (fs, [])
  | fs, t :: ts =>
    let d := resolve fs skip overlay t.cand t.merged
    let fs2 := (execute fs skip overlay t.cand t.merged).fs
    let rest := runBatch skip overlay fs2 ts
    (rest.1, d :: rest.2)

theorem fresh_run_preserves :
    ∀ (ts : List Task) (s o : Bool) (fs : FS) (p : Path) (c : Content),
      lookup fs p = some c →
      (∀ d ∈ (runBatch s o fs ts).2, d = .proceedFresh) →
      lookup (runBatch s o fs ts).1 p = some c := by
  intro ts
  induction ts with
  | nil => intro s o fs p c hp _; exact hp
  | cons t ts ih =>
    intro s o fs p c hp hall
    have hd : resolve fs s o t.cand t.merged = .proceedFresh := by
      apply hall
      simp [runBatch]
    have hnone : lookup fs t.cand = none :=
      (resolve_proceedFresh_iff fs s o t.cand t.merged).mp hd
    have hne : t.cand ≠ p := fun he => by rw [he, hp] at hnone; cases hnone
    have hex : (execute fs s o t.cand t.merged).fs = write fs t.cand t.merged := by
      simp [execute, hd]
    have hp' : lookup (write fs t.cand t.merged) p = some c := by
      rw [lookup_write, if_neg hne]
      exact hp
    have hall' : ∀ d ∈ (runBatch s o (write fs t.cand t.merged) ts).2,
        d = .proceedFresh := by
      intro d hdm
      apply hall
      simp only [runBatch, hex]
      exact List.mem_cons.mpr (Or.inr hdm)
    have := ih s o (write fs t.cand t.merged) p c hp' hall'
    simpa [runBatch, hex] using this

theorem fresh_run_lookup :
    ∀ (ts : List Task) (s o : Bool) (fs : FS),
      (∀ d ∈ (runBatch s o fs ts).2, d = .proceedFresh) →
      ∀ t ∈ ts, lookup (runBatch s o fs ts).1 t.cand = some t.merged := by
  intro ts
  induction ts with
  | nil => intro s o fs _ t ht; cases ht
  | cons u ts ih =>
    intro s o fs hall t ht
    have hd : resolve fs s o u.cand u.merged = .proceedFresh := by
      apply hall
      simp [runBatch]
    have hex : (execute fs s o u.cand u.merged).fs = write fs u.cand u.merged := by
      simp [execute, hd]
    have hall' : ∀ d ∈ (runBatch s o (write fs u.cand u.merged) ts).2,
        d = .proceedFresh := by
      intro d hdm
      apply hall
      simp only [runBatch, hex]
      exact List.mem_cons.mpr (Or.inr hdm)
    rcases List.mem_cons.mp ht with h | h
    · subst h
      have hu : lookup (write fs t.cand t.merged) t.cand = some t.merged := by
        rw [lookup_write, if_pos rfl]
      have := fresh_run_preserves ts s o (write fs t.cand t.merged)
        t.cand t.merged hu hall'
      simpa [runBatch, hex] using this
    · have := ih s o (write fs u.cand u.merged) hall' t h
      simpa [runBatch, hex] using this

theorem dup_run :
    ∀ (ts : List Task) (s o : Bool) (fs : FS),
      (∀ t ∈ ts, lookup fs t.cand = some t.merged) →
      runBatch s o fs ts = (fs, ts.map fun _ => .abortDuplicate) := by
  intro ts
  induction ts with
  | nil => intro s o fs _; rfl
  | cons t ts ih =>
    intro s o fs hall
    have ht : lookup fs t.cand = some t.merged := hall t (List.mem_cons_self _ _)
    have hd : resolve fs s o t.cand t.merged = .abortDuplicate := by
      simp [resolve, ht]
    have hex : (execute fs s o t.cand t.merged).fs = fs := by
      simp [execute, hd]
    have hrest := ih s o fs fun u hu => hall u (List.mem_cons.mpr (Or.inr hu))
    simp [runBatch, hex, hd, hrest]

/-- The two interchangeable external muxer backends. -/
inductive Backend where
  | mp4box
  | ffmpeg
deriving DecidableEq

/-- Outcome of invoking one backend process: success, or one of the three
failure modes the spec distinguishes. -/
inductive Outcome where
  | ok
  | nonZeroExit
  | missingExe
  | timedOut
deriving DecidableEq

/-- Outcome of one Muxer Adapter invocation: which backend produced the
output and whether the fallback ran in stream-copy mode. -/
structure MuxResult where
  backend : Backend
  streamCopy : Bool
deriving DecidableEq

/-- Failure of the whole adapter: both backends exhausted. -/
structure MuxError where
  primary : Outcome
  fallback : Outcome
deriving DecidableEq

/-- Modelled from the spec: the Muxer Adapter.  The adapter's code is not in
the sources; per the spec MP4Box is attempted first, and on any failure
(non-zero exit, missing executable, timeout) FFmpeg is invoked in
stream-copy mode; the result records the backend used, and the task is
aborted as failed only when both backends are exhausted.  The environment
function gives each backend's process outcome; the returned list is the
ordered sequence of backends actually invoked. -/
def muxAdapter (env : Backend → Outcome) :
    List Backend × Except MuxError MuxResult :=
  match env .mp4box with
  | .ok => ([.mp4box], .ok ⟨.mp4box, false⟩)
  | p =>
    match env .ffmpeg with
    | .ok => ([.mp4box, .ffmpeg], .ok ⟨.ffmpeg, true⟩)
    | f => ([.mp4box, .ffmpeg], .error ⟨p, f⟩)

/-- Concrete adapter environment where the primary backend's executable is
missing and the fallback succeeds. -/
def envPrimaryMissing : Backend → Outcome
  | .mp4box => .missingExe
  | .ffmpeg => .ok

/-- Configuration-level preconditions of a run. -/
inductive ConfigStatus where
  | ok
  | missingCacheRoot
  | noBackend
deriving DecidableEq

/-- The reasons a single title can fail. -/
inductive TitleError where
  | badSegmentPair
  | muxerFailure
  | diskFull
deriving DecidableEq

/-- Outcome of one title's merge attempt. -/
inductive TitleOutcome where
  | success (out : Path)
  | failure (e : TitleError)
deriving DecidableEq

/-- The aggregate report of one run: ordered successes and ordered failures. -/
structure BatchReport where
  successes : List Path
  failures : List TitleError
deriving DecidableEq

/-- Modelled from the spec: the Batch Coordinator's aggregation.  Every
per-title outcome is folded into the report — a failure is recorded and
never aborts the remaining titles. -/
def runTitles : List TitleOutcome → BatchReport
  | [] => ⟨[], []⟩
  | o :: rest =>
    let r := runTitles rest
    match o with
    | .success p => ⟨p :: r.successes, r.failures⟩
    | .failure e => ⟨r.successes, e :: r.failures⟩

/-- The success path recorded for an outcome, if any. -/
def outcomeSuccess : TitleOutcome → Option Path
  | .success p => some p
  | .failure _ => none

/-- The failure reason recorded for an outcome, if any. -/
def outcomeFailure : TitleOutcome → Option TitleError
  | .success _ => none
  | .failure e => some e

/-- Modelled from the spec: the run as a whole.  A configuration-level error
aborts before any task runs with a non-zero exit code; otherwise the whole
batch is processed and the run exits 0 with the finalized report. -/
def runProgram (cfg : ConfigStatus) (outs : List TitleOutcome) :
    Nat × Option BatchReport :=
  match cfg with
  | .ok => (0, some (runTitles outs))
  | _ => (1, none)

theorem runTitles_successes (outs : List TitleOutcome) :
    (runTitles outs).successes = outs.filterMap outcomeSuccess := by
  induction outs with
  | nil => rfl
  | cons o rest ih =>
    cases o with
    | success p => simp [runTitles, List.filterMap_cons, outcomeSuccess, ih]
    | failure e => simp [runTitles, List.filterMap_cons, outcomeSuccess, ih]

theorem runTitles_failures (outs : List TitleOutcome) :
    (runTitles outs).failures = outs.filterMap outcomeFailure := by
  induction outs with
  | nil => rfl
  | cons o rest ih =>
    cases o with
    | success p => simp [runTitles, List.filterMap_cons, outcomeFailure, ih]
    | failure e => simp [runTitles, List.filterMap_cons, outcomeFailure, ih]

theorem runTitles_total (outs : List TitleOutcome) :
    (runTitles outs).successes.length + (runTitles outs).failures.length =
      outs.length := by
  induction outs with
  | nil => rfl
  | cons o rest ih =>
    cases o with
    | success p => simp only [runTitles, List.length_cons]; omega
    | failure e => simp only [runTitles, List.length_cons]; omega

/-- A title subdirectory of the cache root as the scanner sees it:
its name and whether a recognizable audio and video segment is present. -/
structure SubDir where
  name : String
  hasAudio : Bool
  hasVideo : Bool
deriving DecidableEq

/-- Modelled from the spec: the Segment Scanner.  The scanner's code is not
in the sources; per the spec it keeps exactly the subdirectories holding a
complete audio/video segment pair and reports every other subdirectory as a
non-fatal, logged skip (second component), excluded from the produced
sequence (first component). -/
def scan : List SubDir → List SubDir × List String
  | [] => ([], [])
  | d :: rest =>
    let r := scan rest
    if d.hasAudio && d.hasVideo then (d :: r.1, r.2) else (r.1, d.name :: r.2)

theorem scan_entries_complete :
    ∀ (dirs : List SubDir) (e : SubDir), e ∈ (scan dirs).1 →
      e.hasAudio = true ∧ e.hasVideo = true := by
  intro dirs
  induction dirs with
  | nil => intro e he; cases he
  | cons d rest ih =>
    intro e he
    by_cases hc : d.hasAudio && d.hasVideo
    · simp only [scan, if_pos hc] at he
      rcases List.mem_cons.mp he with h | h
      · subst h
        exact ⟨(Bool.and_eq_true _ _).mp hc |>.1, (Bool.and_eq_true _ _).mp hc |>.2⟩
      · exact ih e h
    · simp only [scan, if_neg hc] at he
      exact ih e he

theorem scan_skip_logged :
    ∀ (dirs : List SubDir) (d : SubDir), d ∈ dirs →
      ¬(d.hasAudio = true ∧ d.hasVideo = true) → d.name ∈ (scan dirs).2 := by
  intro dirs
  induction dirs with
  | nil => intro d hd; cases hd
  | cons e rest ih =>
    intro d hd hlack
    rcases List.mem_cons.mp hd with h | h
    · subst h
      have hc : ¬(d.hasAudio && d.hasVideo) = true := by
        intro hc
        exact hlack ((Bool.and_eq_true _ _).mp hc)
      simp only [scan, if_neg hc]
      exact List.mem_cons_self _ _
    · by_cases hc : e.hasAudio && e.hasVideo
      · simp only [scan, if_pos hc]
        exact ih d h hlack
      · simp only [scan, if_neg hc]
        exact List.mem_cons.mpr (Or.inr (ih d h hlack))

/-- The character sanitization of `copy_and_rename_files` in the README:
a character that is alphanumeric, a space, a hyphen or an underscore is
kept, any other character is replaced with an underscore.  The alphanumeric
test is a parameter (Python's Unicode-aware str.isalnum). -/
def sanitizeChar (isalnum : Char → Bool) (c : Char) : Char :=
  if isalnum c || c = ' ' || c = '-' || c = '_' then c else '_'

/-- The `safe_title` derivation of `copy_and_rename_files`: the title with
every character sanitized. -/
def safe_title (isalnum : Char → Bool) (title : List Char) : List Char :=
  title.map (sanitizeChar isalnum)

/-- The destination image file name of `copy_and_rename_files`, derived
from the single `safe_title` value. -/
def dest_image_name (isalnum : Char → Bool) (title : List Char) : List Char :=
  safe_title isalnum title ++ ".jpg".data

/-- The destination video file name of `copy_and_rename_files`, derived
from the single `safe_title` value. -/
def dest_video_name (isalnum : Char → Bool) (title : List Char) : List Char :=
  safe_title isalnum title ++ ".mp4".data

/-- Modelled from the spec: the merged output container.  Muxing is
container-level only: a header holding the two track lengths, followed by
the video payload, the audio payload and the optional soft subtitle track,
each carried byte-for-byte with no decode or re-encode. -/
def muxContainer (v a : Content) (sub : Option Content) : Content :=
  v.length :: a.length :: (v ++ (a ++ sub.getD []))

/-- The video track payload stored in a container. -/
def videoTrack : Content → Content
  | vl :: _ :: rest => rest.take vl
  | _ => []

/-- The audio track payload stored in a container. -/
def audioTrack : Content → Content
  | vl :: al :: rest => (rest.drop vl).take al
  | _ => []

end M4S

namespace LinuxGo

/-- File contents in the GetMP4Box model. -/
abbrev FileBytes := List Nat

/-- The filesystem visible to GetMP4Box: a map from paths to contents. -/
abbrev FSMap := String → Option FileBytes

/-- utils.IsExist: whether a file exists at the path. -/
def IsExist (fs : FSMap) (p : String) : Bool := (fs p).isSome

/-- os.WriteFile: store the bytes at the path. -/
def WriteFile (fs : FSMap) (p : String) (b : FileBytes) : FSMap :=
  fun q => if q = p then some b else fs q

/-- GetMP4Box from internal/linux.go: the path is filepath.Join of the temp
directory with "MP4Box" (modelled as string concatenation with a
separator); when no file exists there the embedded MP4Box bytes are
released to it, otherwise nothing is written; the path is returned either
way.  The embedded bytes and the temp directory are parameters of the
model; the write-failure branch (logrus.Fatal aborts the process) is the
success path's complement and outside this state-transformer model. -/
def GetMP4Box (tmpDir : String) (mp4Box : FileBytes) (fs : FSMap) :
    String × FSMap :=
  let mp4boxPath := tmpDir ++ "/MP4Box"
  if IsExist fs mp4boxPath then (mp4boxPath, fs)
  else (mp4boxPath, WriteFile fs mp4boxPath mp4Box)

/-- A concrete filesystem already holding a file at /tmp/MP4Box whose
content differs from the embedded bytes. -/
def fsStale : FSMap :=
  fun q => if q = "/tmp/MP4Box" then some [1, 2] else none

end LinuxGo

/-- Claim C1: when the candidate output path already holds a file identical
to what the merge would produce, the resolver chooses abort-duplicate for
every setting of the skip and overlay flags, no muxer process is invoked
and the filesystem is left unchanged. -/
theorem c1_abort_duplicate_of_identical (fs : M4S.FS) (skip overlay : Bool)
    (cand : M4S.Path) (merged : M4S.Content)
    (h : M4S.lookup fs cand = some merged) :
    M4S.resolve fs skip overlay cand merged = .abortDuplicate ∧
      M4S.execute fs skip overlay cand merged =
        ⟨fs, false, none⟩ := by
  have hres : M4S.resolve fs skip overlay cand merged = .abortDuplicate := by
    simp [M4S.resolve, h]
  exact ⟨hres, by simp [M4S.execute, hres]⟩

/-- Witness for C1 at a concrete filesystem holding an identical file. -/
theorem c1_abort_duplicate_of_identical_witness :
    M4S.resolve [(⟨"A", 0⟩, [1, 2])] true false ⟨"A", 0⟩ [1, 2] =
        .abortDuplicate ∧
      M4S.execute [(⟨"A", 0⟩, [1, 2])] true false ⟨"A", 0⟩ [1, 2] =
        ⟨[(⟨"A", 0⟩, [1, 2])], false, none⟩ :=
  c1_abort_duplicate_of_identical [(⟨"A", 0⟩, [1, 2])] true false
    ⟨"A", 0⟩ [1, 2] (by decide)

/-- Claim C2: with both the skip and the overlay flag set and a
non-identical file at the candidate path, the resolver chooses skip: no
process is invoked, no path is written (in particular no renamed path is
produced), and the existing file is untouched. -/
theorem c2_skip_precedence (fs : M4S.FS) (cand : M4S.Path)
    (merged c : M4S.Content) (h : M4S.lookup fs cand = some c)
    (hne : c ≠ merged) :
    M4S.resolve fs true true cand merged = .skipped ∧
      M4S.execute fs true true cand merged = ⟨fs, false, none⟩ := by
  have hres : M4S.resolve fs true true cand merged = .skipped := by
    simp [M4S.resolve, h, hne]
  exact ⟨hres, by simp [M4S.execute, hres]⟩

/-- Witness for C2 at a concrete filesystem holding a different file. -/
theorem c2_skip_precedence_witness :
    M4S.resolve [(⟨"A", 0⟩, [9])] true true ⟨"A", 0⟩ [1, 2] = .skipped ∧
      M4S.execute [(⟨"A", 0⟩, [9])] true true ⟨"A", 0⟩ [1, 2] =
        ⟨[(⟨"A", 0⟩, [9])], false, none⟩ :=
  c2_skip_precedence [(⟨"A", 0⟩, [9])] ⟨"A", 0⟩ [1, 2] [9]
    (by decide) (by decide)

/-- Claim C3: with neither flag set and a non-identical existing file, the
resolver decides rename: the renamed path shares the candidate's base name
and carries a numeric suffix of at least 1, chosen minimally (every smaller
positive suffix is occupied), it is not equal to any path that already
exists, and after executing the decision the pre-existing file at the
candidate path is unchanged. -/
theorem c3_rename_policy (fs : M4S.FS) (cand : M4S.Path)
    (merged c : M4S.Content) (h : M4S.lookup fs cand = some c)
    (hne : c ≠ merged) :
    ∃ p : M4S.Path,
      M4S.resolve fs false false cand merged = .rename p ∧
      M4S.lookup fs p = none ∧
      p ≠ cand ∧
      p.base = cand.base ∧
      1 ≤ p.idx ∧
      (∀ m, 1 ≤ m → m < p.idx → M4S.lookup fs ⟨cand.base, m⟩ ≠ none) ∧
      M4S.lookup (M4S.execute fs false false cand merged).fs cand = some c := by
  refine ⟨⟨cand.base, M4S.renameIdx fs cand.base⟩, ?_, ?_, ?_, rfl, ?_, ?_, ?_⟩
  · simp [M4S.resolve, h, hne]
  · exact (Nat.find_spec (M4S.rename_exists fs cand.base)).2
  · intro he
    have hnone : M4S.lookup fs ⟨cand.base, M4S.renameIdx fs cand.base⟩ = none :=
      (Nat.find_spec (M4S.rename_exists fs cand.base)).2
    rw [he, h] at hnone
    cases hnone
  · exact (Nat.find_spec (M4S.rename_exists fs cand.base)).1
  · intro m h1 hm hmn
    exact Nat.find_min (M4S.rename_exists fs cand.base) hm ⟨h1, hmn⟩
  · have hres : M4S.resolve fs false false cand merged =
        .rename ⟨cand.base, M4S.renameIdx fs cand.base⟩ := by
      simp [M4S.resolve, h, hne]
    have hpc : (⟨cand.base, M4S.renameIdx fs cand.base⟩ : M4S.Path) ≠ cand := by
      intro he
      have hnone : M4S.lookup fs ⟨cand.base, M4S.renameIdx fs cand.base⟩ = none :=
        (Nat.find_spec (M4S.rename_exists fs cand.base)).2
      rw [he, h] at hnone
      cases hnone
    simp only [M4S.execute, hres]
    rw [M4S.lookup_write, if_neg hpc]
    exact h

/-- Witness for C3 at a concrete filesystem holding a different file. -/
theorem c3_rename_policy_witness :
    ∃ p : M4S.Path,
      M4S.resolve [(⟨"A", 0⟩, [9])] false false ⟨"A", 0⟩ [1, 2] = .rename p ∧
      M4S.lookup [(⟨"A", 0⟩, [9])] p = none ∧
      p ≠ ⟨"A", 0⟩ ∧
      p.base = M4S.Path.base ⟨"A", 0⟩ ∧
      1 ≤ p.idx ∧
      (∀ m, 1 ≤ m → m < p.idx →
        M4S.lookup [(⟨"A", 0⟩, [9])] ⟨M4S.Path.base ⟨"A", 0⟩, m⟩ ≠ none) ∧
      M4S.lookup (M4S.execute [(⟨"A", 0⟩, [9])] false false ⟨"A", 0⟩ [1, 2]).fs
        ⟨"A", 0⟩ = some [9] :=
  c3_rename_policy [(⟨"A", 0⟩, [9])] ⟨"A", 0⟩ [1, 2] [9] (by decide) (by decide)

/-- Claim C4: after a first batch run over an unchanged cache in which
every task resolved proceed-fresh (a fully successful first run), a second
run with any setting of the skip and overlay flags writes nothing — the
filesystem is exactly the one produced by the first run — and every title
is resolved as abort-duplicate. -/
theorem c4_rerun_noop (s1 o1 s2 o2 : Bool) (fs0 : M4S.FS)
    (ts : List M4S.Task)
    (h : ∀ d ∈ (M4S.runBatch s1 o1 fs0 ts).2, d = .proceedFresh) :
    M4S.runBatch s2 o2 (M4S.runBatch s1 o1 fs0 ts).1 ts =
      ((M4S.runBatch s1 o1 fs0 ts).1, ts.map fun _ => .abortDuplicate) :=
  M4S.dup_run ts s2 o2 (M4S.runBatch s1 o1 fs0 ts).1
    (M4S.fresh_run_lookup ts s1 o1 fs0 h)

/-- Witness for C4: a concrete two-title batch, first run fresh on an empty
filesystem, second run under opposite flags is a no-op of abort-duplicates. -/
theorem c4_rerun_noop_witness :
    M4S.runBatch true true
        (M4S.runBatch false false [] [⟨⟨"A", 0⟩, [1]⟩, ⟨⟨"B", 0⟩, [2]⟩]).1
        [⟨⟨"A", 0⟩, [1]⟩, ⟨⟨"B", 0⟩, [2]⟩] =
      ((M4S.runBatch false false [] [⟨⟨"A", 0⟩, [1]⟩, ⟨⟨"B", 0⟩, [2]⟩]).1,
        [.abortDuplicate, .abortDuplicate]) :=
  c4_rerun_noop false false true true [] [⟨⟨"A", 0⟩, [1]⟩, ⟨⟨"B", 0⟩, [2]⟩]
    (by decide)

/-- Claim C5: the structured-container muxer (MP4Box) is always attempted
first; the fallback (FFmpeg) is invoked exactly when the primary fails
(non-zero exit, missing executable or timeout); when the fallback succeeds
the MuxResult records the fallback backend in stream-copy mode and the task
is successful; when both backends are exhausted the task is aborted as
failed. -/
theorem c5_fallback_order (env : M4S.Backend → M4S.Outcome) :
    (M4S.muxAdapter env).1.head? = some .mp4box ∧
    (M4S.Backend.ffmpeg ∈ (M4S.muxAdapter env).1 ↔ env .mp4box ≠ .ok) ∧
    (env .mp4box ≠ .ok → env .ffmpeg = .ok →
      (M4S.muxAdapter env).2 = .ok ⟨.ffmpeg, true⟩) ∧
    (env .mp4box ≠ .ok → env .ffmpeg ≠ .ok →
      ∃ e, (M4S.muxAdapter env).2 = .error e) := by
  cases h1 : env M4S.Backend.mp4box <;> cases h2 : env M4S.Backend.ffmpeg <;>
    simp [M4S.muxAdapter, h1, h2]

/-- Witness for C5: with the primary executable missing and the fallback
succeeding, the adapter returns a successful MuxResult on the fallback
backend. -/
theorem c5_fallback_order_witness :
    (M4S.muxAdapter M4S.envPrimaryMissing).2 = .ok ⟨.ffmpeg, true⟩ :=
  (c5_fallback_order M4S.envPrimaryMissing).2.2.1 (by decide) (by decide)

/-- Claim C6: the run exits non-zero exactly for configuration-level
errors; on a valid configuration every per-title failure is recorded in the
BatchReport, each title is accounted for (no failure aborts the remaining
batch), and the run exits 0 even when failures were recorded. -/
theorem c6_error_propagation (cfg : M4S.ConfigStatus)
    (outs : List M4S.TitleOutcome) :
    ((M4S.runProgram cfg outs).1 = 0 ↔ cfg = .ok) ∧
    (cfg = .ok →
      (M4S.runProgram cfg outs).2 = some (M4S.runTitles outs) ∧
      (M4S.runTitles outs).failures = outs.filterMap M4S.outcomeFailure ∧
      (M4S.runTitles outs).successes = outs.filterMap M4S.outcomeSuccess ∧
      (M4S.runTitles outs).successes.length +
        (M4S.runTitles outs).failures.length = outs.length) := by
  constructor
  · cases cfg <;> simp [M4S.runProgram]
  · intro hc
    subst hc
    exact ⟨rfl, M4S.runTitles_failures outs, M4S.runTitles_successes outs,
      M4S.runTitles_total outs⟩

/-- Witness for C6: a concrete batch with one success and one disk-full
failure exits 0 with both recorded. -/
theorem c6_error_propagation_witness :
    ((M4S.runProgram .ok [.success ⟨"A", 0⟩, .failure .diskFull]).1 = 0 ↔
      (M4S.ConfigStatus.ok = .ok)) ∧
    ((M4S.ConfigStatus.ok = .ok) →
      (M4S.runProgram .ok [.success ⟨"A", 0⟩, .failure .diskFull]).2 =
        some (M4S.runTitles [.success ⟨"A", 0⟩, .failure .diskFull]) ∧
      (M4S.runTitles [.success ⟨"A", 0⟩, .failure .diskFull]).failures =
        List.filterMap M4S.outcomeFailure
          [.success ⟨"A", 0⟩, .failure .diskFull] ∧
      (M4S.runTitles [.success ⟨"A", 0⟩, .failure .diskFull]).successes =
        List.filterMap M4S.outcomeSuccess
          [.success ⟨"A", 0⟩, .failure .diskFull] ∧
      (M4S.runTitles [.success ⟨"A", 0⟩, .failure .diskFull]).successes.length +
        (M4S.runTitles [.success ⟨"A", 0⟩, .failure .diskFull]).failures.length =
        List.length [M4S.TitleOutcome.success ⟨"A", 0⟩, .failure .diskFull]) :=
  c6_error_propagation .ok [.success ⟨"A", 0⟩, .failure .diskFull]

/-- Claim C7: `safe_title` keeps every character that is alphanumeric, a
space, a hyphen or an underscore, replaces every other character with an
underscore, preserves the title's length, and the same sanitized stem is
the one from which both derived output filenames are built. -/
theorem c7_sanitize_consistent (f : Char → Bool) (t : List Char) :
    (M4S.safe_title f t).length = t.length ∧
    (∀ i : Nat, (M4S.safe_title f t)[i]? =
      (t[i]?).map fun c =>
        if f c || c = ' ' || c = '-' || c = '_' then c else '_') ∧
    (M4S.dest_image_name f t).take (M4S.safe_title f t).length =
      M4S.safe_title f t ∧
    (M4S.dest_video_name f t).take (M4S.safe_title f t).length =
      M4S.safe_title f t := by
  refine ⟨List.length_map _ _, ?_, ?_, ?_⟩
  · intro i
    exact List.getElem?_map (M4S.sanitizeChar f) t i
  · exact List.take_left _ _
  · exact List.take_left _ _

/-- Claim C8: a cache subdirectory lacking its audio segment, its video
segment or both is excluded from the scanner's produced sequence, its skip
is logged, and the batch over the remaining entries still exits with code 0
for every per-title mux environment. -/
theorem c8_incomplete_dir_skipped (dirs : List M4S.SubDir) (d : M4S.SubDir)
    (hd : d ∈ dirs) (hlack : d.hasAudio = false ∨ d.hasVideo = false) :
    d ∉ (M4S.scan dirs).1 ∧
    d.name ∈ (M4S.scan dirs).2 ∧
    (∀ env : M4S.SubDir → M4S.TitleOutcome,
      (M4S.runProgram .ok (((M4S.scan dirs).1).map env)).1 = 0) := by
  have hnot : ¬(d.hasAudio = true ∧ d.hasVideo = true) := by
    rcases hlack with h | h <;> simp [h]
  refine ⟨?_, M4S.scan_skip_logged dirs d hd hnot, fun env => rfl⟩
  intro he
  exact hnot (M4S.scan_entries_complete dirs d he)

/-- Witness for C8: a cache with a complete title A and a video-only title
B excludes B, logs it, and exits 0. -/
theorem c8_incomplete_dir_skipped_witness :
    (⟨"B", false, true⟩ : M4S.SubDir) ∉
      (M4S.scan [⟨"A", true, true⟩, ⟨"B", false, true⟩]).1 ∧
    M4S.SubDir.name ⟨"B", false, true⟩ ∈
      (M4S.scan [⟨"A", true, true⟩, ⟨"B", false, true⟩]).2 ∧
    (∀ env : M4S.SubDir → M4S.TitleOutcome,
      (M4S.runProgram .ok
        (((M4S.scan [⟨"A", true, true⟩, ⟨"B", false, true⟩]).1).map env)).1 =
        0) :=
  c8_incomplete_dir_skipped [⟨"A", true, true⟩, ⟨"B", false, true⟩]
    ⟨"B", false, true⟩ (by decide) (Or.inl rfl)

/-- Claim C9: muxing is container-level stream-copy only — the video and
audio payloads of the input segments are carried byte-for-byte unchanged
into the merged output container, for any optional subtitle track. -/
theorem c9_stream_copy (v a : M4S.Content) (sub : Option M4S.Content) :
    M4S.videoTrack (M4S.muxContainer v a sub) = v ∧
    M4S.audioTrack (M4S.muxContainer v a sub) = a := by
  constructor
  · show (v ++ (a ++ sub.getD [])).take v.length = v
    exact List.take_left _ _
  · show ((v ++ (a ++ sub.getD [])).drop v.length).take a.length = a
    rw [List.drop_left]
    exact List.take_left _ _

/-- Claim C10: GetMP4Box always returns the fixed temp-dir path; when a
file already exists at that path — even one whose content differs from the
embedded bytes — the filesystem is left unchanged; and calling it twice has
the same effect as calling it once. -/
theorem c10_getmp4box (tmpDir : String) (b : LinuxGo.FileBytes)
    (fs : LinuxGo.FSMap) :
    (LinuxGo.GetMP4Box tmpDir b fs).1 = tmpDir ++ "/MP4Box" ∧
    (∀ c, fs (tmpDir ++ "/MP4Box") = some c →
      (LinuxGo.GetMP4Box tmpDir b fs).2 = fs) ∧
    LinuxGo.GetMP4Box tmpDir b (LinuxGo.GetMP4Box tmpDir b fs).2 =
      LinuxGo.GetMP4Box tmpDir b fs := by
  by_cases h : LinuxGo.IsExist fs (tmpDir ++ "/MP4Box") = true
  · refine ⟨?_, ?_, ?_⟩ <;> simp [LinuxGo.GetMP4Box, h]
  · refine ⟨?_, ?_, ?_⟩
    · simp [LinuxGo.GetMP4Box, h]
    · intro c hc
      exact absurd (by simp [LinuxGo.IsExist, hc]) h
    · have h2 : LinuxGo.IsExist
          (LinuxGo.WriteFile fs (tmpDir ++ "/MP4Box") b)
          (tmpDir ++ "/MP4Box") = true := by
        simp [LinuxGo.IsExist, LinuxGo.WriteFile]
      simp [LinuxGo.GetMP4Box, h, h2]

/-- Witness for C10: a pre-existing /tmp/MP4Box with stale content distinct
from the embedded bytes is left untouched. -/
theorem c10_getmp4box_witness :
    (LinuxGo.GetMP4Box "/tmp" [3] LinuxGo.fsStale).2 = LinuxGo.fsStale :=
  (c10_getmp4box "/tmp" [3] LinuxGo.fsStale).2.1 [1, 2] (by decide)
